import Mathlib

/-!
Verification of the agent session protocol adapter of code-cli-sdk.

This file shallowly embeds the Claude Code provider
(src/packages/claude: canUseTool, promptInternal, promptToClaude,
toAcpNotifications, streamEventToAcpNotifications, planEntries,
getAvailableSlashCommands renaming, ClaudeCodeSession.cancel and close,
ClaudeCodeProvider.closeSession, CLAUDE_CAPABILITY, EDIT_TOOL_NAMES) and
the core wire framing and error table (src/packages/core: ndJsonStream
decoding, RequestError), and proves theorems settling the specification
claims about them.

Modelling conventions.
Text that the code only compares for equality or substring containment is
a Lean String; text that the code splits, rewrites or concatenates
character by character (the newline framing, the MCP slash-command
rewriting, URI formatting) is a List Char, matching a JS string as a
sequence of code units.  Asynchronous awaits whose outcome the code
branches on are passed in as explicit values: an Except models an await
that can throw.  Side effects (notifications emitted through the
EventHandler, messages pushed to the backend, backend control calls) are
returned as explicit lists in program order.  Logging calls are pure
no-ops and are not modelled.
-/

deriving instance DecidableEq for Except

namespace CodeCliSdk

/-! ## Character and string utilities shared by several components -/

/-- Whitespace as tested by the JS regex classes \s and \S and by trim,
restricted to the ASCII whitespace characters that occur in the data the
adapter handles. -/
def wsChar (c : Char) : Bool := c = ' ' || c = '\t' || c = '\n' || c = '\r'

/-- Substring containment, the semantics of JS String.prototype.includes,
used by promptInternal for the login hint and command-output markers. -/
def strIncludes (s sub : String) : Bool :=
  (List.range (s.toList.length + 1)).any fun i => sub.toList.isPrefixOf (s.toList.drop i)

/-- Splitting on a single separator character, the semantics of JS
String.prototype.split with a one-character string argument: a list of
n separators yields n+1 (possibly empty) segments. -/
def splitSep (sep : Char) : List Char → List (List Char)
  | [] => [[]]
  | c :: rest =>
    if c = sep then [] :: splitSep sep rest
    else
      match splitSep sep rest with
      | [] => [[c]]
      | l :: ls => (c :: l) :: ls

/-- The last segment of a split result, the value JS Array.prototype.pop
returns on the (never empty) result of a split. -/
def lastSeg : List (List Char) → List Char
  | [] => []
  | [x] => x
  | _ :: y :: ys => lastSeg (y :: ys)

/-- Glue a held partial segment onto the first segment of a later split:
the algebra of buffering a partial record across reads. -/
def mergeHead (x : List Char) : List (List Char) → List (List Char)
  | [] => [x]
  | y :: ys => (x ++ y) :: ys

/-- Leading and trailing whitespace removal, the semantics of JS
String.prototype.trim on the modelled character set. -/
def jsTrim (l : List Char) : List Char :=
  ((l.dropWhile wsChar).reverse.dropWhile wsChar).reverse

/-- First-occurrence replacement, the semantics of JS
String.prototype.replace with a plain string pattern; used by
getAvailableSlashCommands as name.replace of the MCP suffix. -/
def replaceFirstStr (pat rep : List Char) : List Char → List Char
  | [] => []
  | c :: rest =>
    if pat.isPrefixOf (c :: rest) then rep ++ (c :: rest).drop pat.length
    else c :: replaceFirstStr pat rep rest

/-! ## Message framer: the decoding side of ndJsonStream
(src/packages/core, ndJsonStream).  The reader accumulates decoded text,
splits on newline, holds the last segment as the partial-record buffer,
trims each complete line, skips blank lines, parses the rest and skips
records that fail to parse; when the input stream is done it closes the
output without flushing the buffer.  The external JSON.parse is a
parameter parse, with parse failure (a JS throw) as none.  TextDecoder
with the stream option decodes split UTF-8 sequences across chunk
boundaries, so a chunk boundary never alters the decoded text and chunks
are modelled directly as text. -/

/-- Processing of the complete lines of one read: trim, skip blank lines,
parse, skip lines that fail to parse (logged, non-fatal). -/
def processLines (parse : List Char → Option α) (lines : List (List Char)) : List α :=
  lines.filterMap fun line =>
    let t := jsTrim line
    if t.isEmpty then none else parse t

/-- The read loop of ndJsonStream: each chunk is appended to the held
buffer, the result is split on newline, the last segment becomes the new
buffer and the complete lines are processed; at end of input the loop
breaks and the controller closes, discarding the buffer. -/
def ndDecodeLoop (parse : List Char → Option α) : List (List Char) → List Char → List α
  | [], _ => []
  | chunk :: rest, buffer =>
    let lines := splitSep '\n' (buffer ++ chunk)
    processLines parse lines.dropLast ++ ndDecodeLoop parse rest (lastSeg lines)

/-- The full decoded sequence ndJsonStream yields for a chunked input
stream, starting from the empty buffer. -/
def ndJsonDecode (parse : List Char → Option α) (chunks : List (List Char)) : List α :=
  ndDecodeLoop parse chunks []

/-- The decoded sequence as claim C7 describes it: split the full
concatenated text on newlines and parse each non-blank record, skipping
records that fail to parse.  This definition follows the claim wording,
for comparison with ndJsonDecode. -/
def claimDecode (parse : List Char → Option α) (text : List Char) : List α :=
  processLines parse (splitSep '\n' text)

/-- A stand-in for the external JSON.parse restricted to the non-negative
integer literals used in concrete instances: JSON.parse is a JS builtin,
not repository code, and the decoder is parametric in it. -/
def parseNum (l : List Char) : Option Nat :=
  if l ≠ [] ∧ l.all Char.isDigit then
    some (l.foldl (fun acc c => acc * 10 + (c.toNat - 48)) 0)
  else none

/-! ## Wire error table (src/packages/core, RequestError).
Each constructor builds the {code, message, data} error object; a JS
falsy (empty) additional message is treated as absent, as the source
template does. -/

/-- The RequestError shape: wire code, message and optional data. -/
structure RequestErr where
  code : Int
  message : String
  data : Option String
deriving DecidableEq

/-- Message suffix for an optional additional message; an empty string is
falsy in JS and contributes nothing. -/
def addMsg (additionalMessage : Option String) : String :=
  match additionalMessage with
  | some m => if m = "" then "" else ": " ++ m
  | none => ""

def RequestError.parseError (data additionalMessage : Option String) : RequestErr :=
  ⟨-32700, "Parse error" ++ addMsg additionalMessage, data⟩

def RequestError.invalidRequest (data additionalMessage : Option String) : RequestErr :=
  ⟨-32600, "Invalid request" ++ addMsg additionalMessage, data⟩

def RequestError.invalidParams (data additionalMessage : Option String) : RequestErr :=
  ⟨-32602, "Invalid params" ++ addMsg additionalMessage, data⟩

def RequestError.internalError (data additionalMessage : Option String) : RequestErr :=
  ⟨-32603, "Internal error" ++ addMsg additionalMessage, data⟩

def RequestError.authRequired (data additionalMessage : Option String) : RequestErr :=
  ⟨-32000, "Authentication required" ++ addMsg additionalMessage, data⟩

/-! ## Capability registry (src/packages/claude, CLAUDE_CAPABILITY). -/

/-- The Capability record of the core package: per-backend declared
string tags, one list per group. -/
structure Capability where
  session : List String
  auth : List String
  utils : List String
  prompt : List String
  agent : List String

/-- The capability set declared by the Claude Code provider, verbatim
from the source (including the duplicated resume tag). -/
def CLAUDE_CAPABILITY : Capability :=
  { session := ["session/resume", "session/set_model", "session/set_mode",
                "session/cancel", "session/resume"]
  , auth := []
  , utils := ["utils/token_usage"]
  , prompt := ["prompt/system_prompt", "prompt/text", "prompt/image"]
  , agent := ["agent/plan"] }

/-! ## Prompt conversion (src/packages/claude, promptToClaude and
formatUriAsLink).  Content blocks become Claude message parts; text
prompts of the form /mcp:server:command args are rewritten back to the
backend form /server:command (MCP) args; audio and blob resources are
ignored; text resources additionally append a context part. -/

/-- The MCP suffix string used by the slash-command renaming. -/
def mcpSuffix : List Char := " (MCP)".toList

/-- The renaming step of getAvailableSlashCommands: a backend command
name ending in the MCP suffix becomes mcp: followed by the name with the
first occurrence of the suffix removed. -/
def renameCommand (name : List Char) : List Char :=
  if mcpSuffix.isSuffixOf name then "mcp:".toList ++ replaceFirstStr mcpSuffix [] name
  else name

/-- The matcher for the backtracked JS regex of promptToClaude that
recognises /mcp:server:command args: server is one or more characters
that are neither a colon nor whitespace, command is one or more
non-whitespace characters taken greedily, and the optional trailing args
group matches one or more whitespace characters followed by characters
without a line terminator.  The existential over the split point is the
backtracking semantics of the group pair. -/
def wsDotStar (l : List Char) : Bool :=
  (List.range l.length).any fun i =>
    ((l.take (i + 1)).all wsChar) && !((l.drop (i + 1)).any fun c => c = '\n' || c = '\r')

def mcpMatch (text : List Char) : Option (List Char × List Char × List Char) :=
  if "/mcp:".toList.isPrefixOf text then
    let rest := text.drop 5
    let server := rest.takeWhile fun c => !(c = ':') && !wsChar c
    if server.isEmpty then none
    else
      match rest.drop server.length with
      | ':' :: rest2 =>
        let command := rest2.takeWhile fun c => !wsChar c
        let argsPart := rest2.drop command.length
        if command.isEmpty then none
        else if argsPart.isEmpty then some (server, command, [])
        else if wsDotStar argsPart then some (server, command, argsPart)
        else none
      | _ => none
  else none

/-- The text rewriting of the promptToClaude text case: a matched
/mcp:server:command args prompt becomes /server:command (MCP) args,
anything else is left unchanged. -/
def rewriteMcpText (text : List Char) : List Char :=
  match mcpMatch text with
  | some (server, command, args) => '/' :: (server ++ ':' :: (command ++ mcpSuffix ++ args))
  | none => text

/-- formatUriAsLink: a file URI is rendered as a markdown link named
after the last path segment (or the whole path when the URI ends in a
slash); other URIs pass through. -/
def formatUriAsLink (uri : List Char) : List Char :=
  if "file://".toList.isPrefixOf uri then
    let path := uri.drop 7
    let last := lastSeg (splitSep '/' path)
    let name := if last.isEmpty then path else last
    '[' :: '@' :: (name ++ ']' :: '(' :: (uri ++ [')']))
  else uri

/-- The context wrapper appended for a text resource. -/
def contextWrap (uri rtext : List Char) : List Char :=
  "\n<context ref=\"".toList ++ uri ++ "\">\n".toList ++ rtext ++ "\n</context>".toList

/-- One part of the converted Claude user message. -/
inductive PromptPart
  | text (t : List Char)
  | imageBase64 (data : String) (mediaType : String)
  | imageUrl (url : List Char)
deriving DecidableEq

/-- The SDKUserMessage promptToClaude builds: role user, the converted
content, the session id; the constant fields (type user, null parent
tool use id) are implicit in the shape. -/
structure SDKUserMessage where
  content : List PromptPart
  sessionId : String
deriving DecidableEq

/-- Content blocks of a prompt, the input side of promptToClaude.  A
resource is a text resource or a blob resource; images carry optional
base64 data and an optional URI. -/
inductive ContentBlock
  | text (t : List Char)
  | image (data : Option String) (mimeType : String) (uri : Option (List Char))
  | audio (data : String) (mimeType : String)
  | resourceLink (uri : List Char)
  | resourceText (uri : List Char) (rtext : List Char)
  | resourceBlob (uri : List Char)
deriving DecidableEq

/-- The accumulation loop of promptToClaude: content parts and deferred
context parts, in source order.  Audio blocks and blob resources fall to
the ignore arms and contribute nothing. -/
def promptPartsAux : List ContentBlock → List PromptPart × List PromptPart
  | [] => ([], [])
  | b :: rest =>
    let (content, context) := promptPartsAux rest
    match b with
    | .text t => (.text (rewriteMcpText t) :: content, context)
    | .resourceLink uri => (.text (formatUriAsLink uri) :: content, context)
    | .resourceText uri rtext =>
        (.text (formatUriAsLink uri) :: content, .text (contextWrap uri rtext) :: context)
    | .resourceBlob _ => (content, context)
    | .image data _mime uri =>
        match data, uri with
        | some d, _ => (.imageBase64 d _mime :: content, context)
        | none, some u =>
            if "http".toList.isPrefixOf u then (.imageUrl u :: content, context)
            else (content, context)
        | none, none => (content, context)
    | .audio _ _ => (content, context)

/-- promptToClaude: convert the prompt blocks, then append the deferred
context parts after the content parts. -/
def promptToClaude (prompt : List ContentBlock) (sessionId : String) : SDKUserMessage :=
  let (content, context) := promptPartsAux prompt
  { content := content ++ context, sessionId := sessionId }

/-! ## Permission arbitration (src/packages/claude, canUseTool).
The returned closure looks up the session, runs the ExitPlanMode flow or
the generic flow, and models the awaited handler.requestPermission
response as an Except: an error is a rejected await, which the source
does not catch.  The updatedInput field of an allow always echoes the
tool input and is left implicit; the updatedPermissions fallback values
are modelled; the session mode assignment and the modeUpdate
notification of the ExitPlanMode acceptance are returned explicitly. -/

/-- The edit-class tool names auto-allowed by the acceptEdits mode. -/
def EDIT_TOOL_NAMES : List String := ["mcp__acp__Edit", "mcp__acp__Write"]

/-- One entry of an updatedPermissions list. -/
inductive PermUpdate
  | setMode (mode : String)
  | addRules (toolName : String)
deriving DecidableEq

/-- The behavior part of a PermissionResult.  An allow carries the
updatedPermissions when the source includes that field; a deny carries
its message and interrupt flag. -/
inductive PermissionDecision
  | allow (updatedPermissions : Option (List PermUpdate))
  | deny (message : String) (interrupt : Bool)
deriving DecidableEq

/-- The outcome of the awaited permission response. -/
inductive PermissionOutcome
  | cancelled
  | selected (optionId : String)
deriving DecidableEq

/-- Everything one canUseTool invocation produces besides a possible
throw: the decision, the session mode it assigned (if any) and the
currentModeId values of the modeUpdate notifications it emitted. -/
structure CanUseToolResult where
  decision : PermissionDecision
  newSessionMode : Option String
  modeUpdates : List String
deriving DecidableEq

/-- canUseTool.  sessionMode is none when the session table lookup
misses; await is the sessionized handler.requestPermission result
(error = the await threw); aborted is the state of signal.aborted at the
post-await check.  The source checks the abort signal only after the
await returns, and rethrows nothing: a cancelled or aborted decision
throws the JS Error with message Tool use aborted. -/
def canUseTool (sessionMode : Option String) (toolName : String)
    (suggestions : Option (List PermUpdate)) (aborted : Bool)
    (await : Except String PermissionOutcome) : Except String CanUseToolResult :=
  match sessionMode with
  | none => .ok ⟨.deny "Session not found" true, none, []⟩
  | some mode =>
    if toolName = "ExitPlanMode" then
      match await with
      | .error e => .error e
      | .ok response =>
        if aborted || response = .cancelled then .error "Tool use aborted"
        else
          match response with
          | .selected optionId =>
            if optionId = "default" || optionId = "acceptEdits" then
              .ok ⟨.allow (some (suggestions.getD [.setMode optionId])),
                   some optionId, [optionId]⟩
            else .ok ⟨.deny "User rejected request to exit plan mode." true, none, []⟩
          | .cancelled => .ok ⟨.deny "User rejected request to exit plan mode." true, none, []⟩
    else if mode = "bypassPermissions" ∨ (mode = "acceptEdits" ∧ toolName ∈ EDIT_TOOL_NAMES) then
      .ok ⟨.allow (some (suggestions.getD [.addRules toolName])), none, []⟩
    else
      match await with
      | .error e => .error e
      | .ok response =>
        if aborted || response = .cancelled then .error "Tool use aborted"
        else
          match response with
          | .selected optionId =>
            if optionId = "allow" || optionId = "allow_always" then
              if optionId = "allow_always" then
                .ok ⟨.allow (some (suggestions.getD [.addRules toolName])), none, []⟩
              else .ok ⟨.allow none, none, []⟩
            else .ok ⟨.deny "User refused permission to run tool" true, none, []⟩
          | .cancelled => .ok ⟨.deny "User refused permission to run tool" true, none, []⟩

/-! ## Event translator (src/packages/claude, toAcpNotifications,
streamEventToAcpNotifications, planEntries, and the tool-use cache).
The title, kind, content and locations fields spread into tool_call and
tool_call_update notifications are computed by toolInfoFromToolUse and
toolUpdateFromToolResult as pure functions of the tool name and inputs
the notification already carries (the ToolUpdate interface of the tool
module holds only title, content and locations, so the spread never
touches the toolCallId or status fields set beside it); the
notifications here carry those determining inputs wholesale.  The
registerHookCallback call registers a callback for a later asynchronous
delivery and emits nothing synchronously; it is not part of the
notification stream and is not modelled.  The JSON round trip the source
applies to rawInput is the identity on the modelled inputs. -/

/-- A Claude plan entry as found in TodoWrite input. -/
structure ClaudePlanEntry where
  content : String
  status : String
  activeForm : String
deriving DecidableEq

/-- A normalized plan entry; planEntries defaults every priority to
medium. -/
structure PlanEntryAcp where
  content : String
  status : String
  priority : String
deriving DecidableEq

/-- planEntries from the source: map each todo, defaulting priority. -/
def planEntries (todos : List ClaudePlanEntry) : List PlanEntryAcp :=
  todos.map fun t => ⟨t.content, t.status, "medium"⟩

/-- A tool input: todos is some list exactly when input.todos is an
array (the Array.isArray check of the TodoWrite branch); raw is the rest
of the JSON payload, carried opaquely. -/
structure ToolInput where
  todos : Option (List ClaudePlanEntry) := none
  raw : String := ""
deriving DecidableEq

/-- One content chunk of a Claude message or stream event.  The three
tool-use variants (tool_use, server_tool_use, mcp_tool_use) behave
identically and share a constructor, as do the seven tool-result
variants; passive covers the chunk types the switch ignores (document,
search_result, redacted_thinking, input_json_delta, citations_delta,
signature_delta, container_upload) and the logged unreachable default. -/
inductive Chunk
  | text (s : String)
  | textDelta (s : String)
  | image (isBase64 : Bool) (data mediaType url : String)
  | thinking (s : String)
  | thinkingDelta (s : String)
  | toolUse (id name : String) (input : ToolInput)
  | toolResult (toolUseId : String) (isError : Option Bool) (raw : String)
  | passive
deriving DecidableEq

/-- The content payload of a message chunk notification. -/
inductive ChunkPayload
  | text (s : String)
  | image (data : Option String) (mimeType : String) (uri : Option String)
deriving DecidableEq

/-- Execution status of a tool call. -/
inductive ToolCallStatus
  | pending
  | inProgress
  | completed
  | failed
deriving DecidableEq

/-- A normalized session update.  toolCall and toolCallUpdate carry the
tool name and inputs that determine their remaining spread fields. -/
inductive Update
  | userMessageChunk (c : ChunkPayload)
  | agentMessageChunk (c : ChunkPayload)
  | agentThoughtChunk (text : String)
  | toolCall (toolCallId : String) (status : ToolCallStatus) (name : String) (rawInput : ToolInput)
  | toolCallUpdate (toolCallId : String) (status : ToolCallStatus)
      (resultIsError : Option Bool) (resultRaw : String)
      (cachedName : String) (cachedInput : ToolInput)
  | plan (entries : List PlanEntryAcp)
  | usageUpdate (inputTokens outputTokens cacheReadInputTokens cacheCreationInputTokens : Nat)
deriving DecidableEq

/-- A session-scoped notification. -/
structure Notification where
  sessionId : String
  update : Update
deriving DecidableEq

/-- A cached tool invocation: the name and input stored under the tool
use id. -/
structure CachedToolUse where
  name : String
  input : ToolInput
deriving DecidableEq

/-- The per-session tool-use cache.  A JS object keyed by id: insertion
prepends and lookup takes the first hit, so a later insertion under the
same id shadows the earlier one, as assignment overwrites. -/
abbrev ToolUseCache := List (String × CachedToolUse)

def cacheLookup (cache : ToolUseCache) (id : String) : Option CachedToolUse :=
  (cache.find? fun e => e.1 = id).map (·.2)

def cacheInsert (cache : ToolUseCache) (id : String) (v : CachedToolUse) : ToolUseCache :=
  (id, v) :: cache

/-- The per-chunk body of the toAcpNotifications loop: at most one
update per chunk, plus the cache effect.  A tool-use chunk is cached
before the TodoWrite test; a tool-result chunk with no cached invocation
is dropped with a logged diagnostic; a tool-result whose cached
invocation is TodoWrite emits nothing. -/
def processChunk (role : String) (cache : ToolUseCache) (c : Chunk) :
    Option Update × ToolUseCache :=
  match c with
  | .text s =>
    (some (if role = "assistant" then .agentMessageChunk (.text s)
           else .userMessageChunk (.text s)), cache)
  | .textDelta s =>
    (some (if role = "assistant" then .agentMessageChunk (.text s)
           else .userMessageChunk (.text s)), cache)
  | .image isBase64 data mediaType url =>
    (some ((if role = "assistant" then Update.agentMessageChunk else Update.userMessageChunk)
      (.image (if isBase64 then some data else none)
              (if isBase64 then mediaType else "")
              (if isBase64 then none else some url))), cache)
  | .thinking s => (some (.agentThoughtChunk s), cache)
  | .thinkingDelta s => (some (.agentThoughtChunk s), cache)
  | .toolUse id name input =>
    let cache2 := cacheInsert cache id ⟨name, input⟩
    if name = "TodoWrite" then
      match input.todos with
      | some ts => (some (.plan (planEntries ts)), cache2)
      | none => (none, cache2)
    else (some (.toolCall id .pending name input), cache2)
  | .toolResult tuId isError raw =>
    match cacheLookup cache tuId with
    | none => (none, cache)
    | some tu =>
      if tu.name = "TodoWrite" then (none, cache)
      else (some (.toolCallUpdate tuId (if isError = some true then .failed else .completed)
                    isError raw tu.name tu.input), cache)
  | .passive => (none, cache)

/-- The chunk loop of toAcpNotifications: per-chunk updates collected in
order, the cache threaded left to right. -/
def toAcpFold (role sessionId : String) : ToolUseCache → List Chunk →
    List Notification × ToolUseCache
  | cache, [] => ([], cache)
  | cache, c :: rest =>
    let r := processChunk role cache c
    let rec2 := toAcpFold role sessionId r.2 rest
    ((match r.1 with
      | some u => { sessionId := sessionId, update := u } :: rec2.1
      | none => rec2.1), rec2.2)

/-- The content of a Claude user or assistant message: a bare string or
a chunk array. -/
inductive MsgContent
  | str (s : String)
  | arr (chunks : List Chunk)
deriving DecidableEq

/-- toAcpNotifications: a bare string becomes a single message chunk by
role; an array runs the chunk loop. -/
def toAcpNotifications (content : MsgContent) (role sessionId : String)
    (cache : ToolUseCache) : List Notification × ToolUseCache :=
  match content with
  | .str s =>
    ([{ sessionId := sessionId
      , update := if role = "assistant" then .agentMessageChunk (.text s)
                  else .userMessageChunk (.text s) }], cache)
  | .arr chunks => toAcpFold role sessionId cache chunks

/-- A partial-message stream event; the content variants carry the chunk
the source forwards to toAcpNotifications. -/
inductive StreamEvent
  | contentBlockStart (c : Chunk)
  | contentBlockDelta (c : Chunk)
  | messageStart
  | messageDelta
  | messageStop
  | contentBlockStop
deriving DecidableEq

/-- streamEventToAcpNotifications: content block starts and deltas are
translated as single assistant chunks; the bookkeeping events emit
nothing. -/
def streamEventToAcpNotifications (e : StreamEvent) (sessionId : String)
    (cache : ToolUseCache) : List Notification × ToolUseCache :=
  match e with
  | .contentBlockStart c => toAcpFold "assistant" sessionId cache [c]
  | .contentBlockDelta c => toAcpFold "assistant" sessionId cache [c]
  | _ => ([], cache)

/-! ## Prompt loop (src/packages/claude, promptInternal).
The loop pulls backend messages in order; the cancellation flag is only
ever set by cancel, so one loop run sees a fixed value, passed as a
parameter.  Thrown RequestErrors, the plain JS Error thrown when the
stream ends without a result, and the TypeError a filter call on string
content would raise are the error side of the outcome. -/

/-- System message subtypes; all are internal bookkeeping (the logged
unreachable default included, as other). -/
inductive SystemSubtype
  | init
  | compactBoundary
  | hookResponse
  | status
  | other
deriving DecidableEq

/-- Result message subtypes of the source switch. -/
inductive ResultSubtype
  | success
  | errorDuringExecution
  | errorMaxBudgetUsd
  | errorMaxTurns
  | errorMaxStructuredOutputRetries
deriving DecidableEq

/-- A terminal result message: subtype, the is_error flag, the result
text (success subtype), the errors list (error subtypes) and the usage
totals forwarded to the usage update. -/
structure ResultMsg where
  subtype : ResultSubtype
  isError : Bool
  resultText : String
  errors : List String
  inputTokens : Nat
  outputTokens : Nat
  cacheReadInputTokens : Nat
  cacheCreationInputTokens : Nat
deriving DecidableEq

/-- A backend message as promptInternal consumes it. -/
inductive SDKMessage
  | system (s : SystemSubtype)
  | result (r : ResultMsg)
  | streamEvent (e : StreamEvent)
  | user (content : MsgContent)
  | assistant (model : String) (content : MsgContent)
  | toolProgress
  | authStatus
deriving DecidableEq

/-- An error that aborts a prompt: a thrown RequestError, a plain thrown
Error, or the TypeError of calling filter on string content. -/
inductive PromptErr
  | requestError (e : RequestErr)
  | jsError (message : String)
  | jsTypeError
deriving DecidableEq

/-- Prompt stop reasons. -/
inductive StopReason
  | endTurn
  | maxTokens
  | maxTurnRequests
  | refusal
  | cancelled
deriving DecidableEq

/-- The wire name of a result subtype, used when the errors list joins
to an empty string. -/
def subtypeName : ResultSubtype → String
  | .success => "success"
  | .errorDuringExecution => "error_during_execution"
  | .errorMaxBudgetUsd => "error_max_budget_usd"
  | .errorMaxTurns => "error_max_turns"
  | .errorMaxStructuredOutputRetries => "error_max_structured_output_retries"

/-- errors.flatten with the JS falsy fallback to the subtype name. -/
def errorsJoin (errors : List String) (fallback : String) : String :=
  let s := String.intercalate ", " errors
  if s = "" then fallback else s

/-- Handling of a result message reached with the cancellation flag
clear: the login hint check precedes the is_error check on a success; a
clean success emits the usage update and stops with end_turn; the error
subtypes throw an internal error when flagged and otherwise map to their
stop reasons. -/
def handleResult (sessionId : String) (r : ResultMsg) :
    List Notification × Except PromptErr StopReason :=
  match r.subtype with
  | .success =>
    if strIncludes r.resultText "Please run /login" then
      ([], .error (.requestError (RequestError.authRequired none none)))
    else if r.isError then
      ([], .error (.requestError (RequestError.internalError none (some r.resultText))))
    else
      ([{ sessionId := sessionId
        , update := .usageUpdate r.inputTokens r.outputTokens
            r.cacheReadInputTokens r.cacheCreationInputTokens }], .ok .endTurn)
  | .errorDuringExecution =>
    if r.isError then
      ([], .error (.requestError (RequestError.internalError none
        (some (errorsJoin r.errors (subtypeName r.subtype))))))
    else ([], .ok .endTurn)
  | .errorMaxBudgetUsd =>
    if r.isError then
      ([], .error (.requestError (RequestError.internalError none
        (some (errorsJoin r.errors (subtypeName r.subtype))))))
    else ([], .ok .maxTurnRequests)
  | .errorMaxTurns =>
    if r.isError then
      ([], .error (.requestError (RequestError.internalError none
        (some (errorsJoin r.errors (subtypeName r.subtype))))))
    else ([], .ok .maxTurnRequests)
  | .errorMaxStructuredOutputRetries =>
    if r.isError then
      ([], .error (.requestError (RequestError.internalError none
        (some (errorsJoin r.errors (subtypeName r.subtype))))))
    else ([], .ok .maxTurnRequests)

/-- A user message skipped as feed noise: string content or a single
text chunk. -/
def isSingleText : List Chunk → Bool
  | [Chunk.text _] => true
  | _ => false

/-- The synthetic login assistant message that makes promptInternal
throw the auth-required error. -/
def isSyntheticLogin (model : String) : List Chunk → Bool
  | [Chunk.text t] => model = "<synthetic>" && strIncludes t "Please run /login"
  | _ => false

/-- The assistant-content filter: text and thinking chunks are already
handled by stream events and are removed before translation. -/
def filterStreamHandled (chunks : List Chunk) : List Chunk :=
  chunks.filter fun c =>
    match c with
    | .text _ => false
    | .thinking _ => false
    | _ => true

/-- The message loop of promptInternal: notifications emitted in order
and the final outcome.  The cancellation checks sit exactly where the
source places them: at stream end, at the head of the result case and at
the head of the user and assistant cases; stream events are translated
unconditionally. -/
def promptLoop (sessionId : String) (cancelled : Bool) :
    ToolUseCache → List SDKMessage → List Notification × Except PromptErr StopReason
  | _, [] =>
    if cancelled then ([], .ok .cancelled)
    else ([], .error (.jsError "Session did not end in result"))
  | cache, m :: rest =>
    match m with
    | .system _ => promptLoop sessionId cancelled cache rest
    | .result r =>
      if cancelled then ([], .ok .cancelled)
      else handleResult sessionId r
    | .streamEvent e =>
      let r := streamEventToAcpNotifications e sessionId cache
      let k := promptLoop sessionId cancelled r.2 rest
      (r.1 ++ k.1, k.2)
    | .user content =>
      if cancelled then promptLoop sessionId cancelled cache rest
      else
        match content with
        | .str _ => promptLoop sessionId cancelled cache rest
        | .arr chunks =>
          if isSingleText chunks then promptLoop sessionId cancelled cache rest
          else
            let r := toAcpNotifications (.arr chunks) "user" sessionId cache
            let k := promptLoop sessionId cancelled r.2 rest
            (r.1 ++ k.1, k.2)
    | .assistant model content =>
      if cancelled then promptLoop sessionId cancelled cache rest
      else
        match content with
        | .str s =>
          if strIncludes s "<local-command-stdout>" || strIncludes s "<local-command-stderr>" then
            promptLoop sessionId cancelled cache rest
          else ([], .error .jsTypeError)
        | .arr chunks =>
          if isSyntheticLogin model chunks then
            ([], .error (.requestError (RequestError.authRequired none none)))
          else
            let r := toAcpNotifications (.arr (filterStreamHandled chunks))
              "assistant" sessionId cache
            let k := promptLoop sessionId cancelled r.2 rest
            (r.1 ++ k.1, k.2)
    | .toolProgress => promptLoop sessionId cancelled cache rest
    | .authStatus => promptLoop sessionId cancelled cache rest

/-- The observable behavior of one promptInternal call: the message
pushed onto the backend input channel, the notifications emitted and the
outcome. -/
structure PromptRun where
  pushed : SDKUserMessage
  notifs : List Notification
  outcome : Except PromptErr StopReason
deriving DecidableEq

/-- promptInternal: push the converted prompt, then drive the message
loop from an empty per-prompt view of the cache state passed in. -/
def promptInternal (sessionId : String) (cancelled : Bool)
    (prompt : List ContentBlock) (msgs : List SDKMessage) : PromptRun :=
  let r := promptLoop sessionId cancelled [] msgs
  ⟨promptToClaude prompt sessionId, r.1, r.2⟩

/-! ## Per-event translation used to state the ordering claim:
the contribution of one non-terminal message, extracted from the same
source cases the loop executes. -/

/-- Whether a message is a non-terminal, non-throwing event of one
prompt: not a result, not the synthetic login throw, not a filter call
on assistant string content. -/
def benign : SDKMessage → Bool
  | .result _ => false
  | .assistant model content =>
    match content with
    | .str s => strIncludes s "<local-command-stdout>" || strIncludes s "<local-command-stderr>"
    | .arr chunks => !isSyntheticLogin model chunks
  | _ => true

/-- The notifications one benign message contributes, with its cache
effect. -/
def translateMsg (sessionId : String) (cache : ToolUseCache) :
    SDKMessage → List Notification × ToolUseCache
  | .system _ => ([], cache)
  | .result _ => ([], cache)
  | .streamEvent e => streamEventToAcpNotifications e sessionId cache
  | .user content =>
    match content with
    | .str _ => ([], cache)
    | .arr chunks =>
      if isSingleText chunks then ([], cache)
      else toAcpNotifications (.arr chunks) "user" sessionId cache
  | .assistant _ content =>
    match content with
    | .str _ => ([], cache)
    | .arr chunks =>
      toAcpNotifications (.arr (filterStreamHandled chunks)) "assistant" sessionId cache
  | .toolProgress => ([], cache)
  | .authStatus => ([], cache)

/-- The in-place per-event notification blocks of a message sequence,
cache threaded left to right. -/
def translateSeq (sessionId : String) : ToolUseCache → List SDKMessage →
    List (List Notification)
  | _, [] => []
  | cache, m :: rest =>
    let r := translateMsg sessionId cache m
    r.1 :: translateSeq sessionId r.2 rest

/-- Whether a chunk writes the cache entry of a given tool use id: only
the tool-use chunk with that id does. -/
def writesId (X : String) : Chunk → Bool
  | .toolUse id _ _ => id = X
  | _ => false

/-! ## Session and provider lifecycle (src/packages/claude,
ClaudeCodeSession.cancel, ClaudeCodeSession.close,
ClaudeCodeProvider.closeSession). -/

/-- The mutable session fields the lifecycle operations touch. -/
structure SessionState where
  cancelled : Bool
  permissionMode : String
deriving DecidableEq

/-- A control call forwarded to the backend query handle. -/
inductive BackendCall
  | interrupt
  | setModel (m : String)
  | setPermissionMode (m : String)
deriving DecidableEq

/-- cancel: set the cancellation flag, then forward an interrupt to the
backend. -/
def ClaudeCodeSession.cancel (s : SessionState) : SessionState × List BackendCall :=
  ({ s with cancelled := true }, [.interrupt])

/-- close: a no-op when already cancelled, otherwise cancel. -/
def ClaudeCodeSession.close (s : SessionState) : SessionState × List BackendCall :=
  if s.cancelled then (s, [])
  else ClaudeCodeSession.cancel s

/-- The provider session table, keyed by session id. -/
abbrev Sessions := String → Option SessionState

/-- closeSession: a lookup miss throws the session-not-exist error;
otherwise close the session, then delete it from the table. -/
def closeSession (sessions : Sessions) (sessionId : String) :
    Except String (Sessions × List BackendCall) :=
  match sessions sessionId with
  | none => .error ("SessionId(" ++ sessionId ++ ") is not exist")
  | some st =>
    let r := ClaudeCodeSession.close st
    .ok (fun id => if id = sessionId then none else sessions id, r.2)

/-! ## Theorems -/

/-- Claim C1, counterexample.  With a live session in default mode, a
plain tool and the abort signal fired at the post-await check, the
arbitration does not deliver a deny decision to the backend: it throws
the Tool use aborted error, so the claim that the delivered decision is
always deny with interrupt and never a propagated exception is false at
this input. -/
theorem canUseTool_abort_throws :
    canUseTool (some "default") "Bash" none true (.ok (.selected "allow"))
      = .error "Tool use aborted" := by decide

/-- Claim C1, amended: whenever the arbitration actually awaits the
decision (ExitPlanMode, or a mode that does not auto-allow the tool) and
the await is cancelled (abort signal or cancelled outcome) or throws,
canUseTool raises an exception — in particular it never resolves to an
allow (or any) decision; the cancel paths throw the Tool use aborted
error and an await exception propagates. -/
theorem canUseTool_fail_closed (mode toolName : String)
    (suggestions : Option (List PermUpdate)) (aborted : Bool)
    (await : Except String PermissionOutcome)
    (hawait : toolName = "ExitPlanMode" ∨
      (mode ≠ "bypassPermissions" ∧ ¬(mode = "acceptEdits" ∧ toolName ∈ EDIT_TOOL_NAMES)))
    (hfail : aborted = true ∨ await = .ok .cancelled ∨ ∃ e, await = .error e) :
    ∃ e, canUseTool (some mode) toolName suggestions aborted await = .error e := by
  unfold canUseTool
  by_cases hx : toolName = "ExitPlanMode"
  · cases await with
    | error e => exact ⟨e, by simp [hx]⟩
    | ok response =>
      rcases hfail with h | h | ⟨e, h⟩
      · exact ⟨"Tool use aborted", by simp [hx, h]⟩
      · injection h with h2
        subst h2
        exact ⟨"Tool use aborted", by simp [hx]⟩
      · exact absurd h (by simp)
  · have hm := hawait.resolve_left hx
    cases await with
    | error e => exact ⟨e, by simp [hx, hm.1, hm.2]⟩
    | ok response =>
      rcases hfail with h | h | ⟨e, h⟩
      · exact ⟨"Tool use aborted", by simp [hx, hm.1, hm.2, h]⟩
      · injection h with h2
        subst h2
        exact ⟨"Tool use aborted", by simp [hx, hm.1, hm.2]⟩
      · exact absurd h (by simp)

/-- Claim C1, witness: the amended theorem applied at a live default
mode session, the Bash tool and a fired abort signal. -/
theorem canUseTool_fail_closed_witness :
    ∃ e, canUseTool (some "default") "Bash" none true (.ok (.selected "allow")) = .error e :=
  canUseTool_fail_closed "default" "Bash" none true (.ok (.selected "allow"))
    (Or.inr ⟨by decide, by decide⟩) (Or.inl rfl)

/-- Claim C3, counterexample.  A live session in default mode, answering
the generic permission request with the selected reject_once option id
(reject): the delivered decision is deny with interrupt set to true, so
the claim that the single-rejection deny does not carry the interrupt
flag is false at this input. -/
theorem canUseTool_reject_interrupts :
    canUseTool (some "default") "Bash" none false (.ok (.selected "reject"))
      = .ok ⟨.deny "User refused permission to run tool" true, none, []⟩ := by decide

/-- Claim C3, amended: answering the generic permission request with any
selected option other than allow or allow_always (in particular the
reject_once option) yields the deny decision, which does carry
interrupt set to true — the adapter requests interruption even for a
single explicit rejection, and no session mode change or mode update is
emitted. -/
theorem canUseTool_reject_once (mode toolName optionId : String)
    (suggestions : Option (List PermUpdate))
    (hname : toolName ≠ "ExitPlanMode")
    (hmode : mode ≠ "bypassPermissions" ∧ ¬(mode = "acceptEdits" ∧ toolName ∈ EDIT_TOOL_NAMES))
    (hopt : optionId ≠ "allow" ∧ optionId ≠ "allow_always") :
    canUseTool (some mode) toolName suggestions false (.ok (.selected optionId))
      = .ok ⟨.deny "User refused permission to run tool" true, none, []⟩ := by
  unfold canUseTool
  simp [hname, hmode.1, hmode.2, hopt.1, hopt.2]

/-- Claim C3, witness: the amended theorem at a default mode session
answering reject on the Bash tool. -/
theorem canUseTool_reject_once_witness :
    canUseTool (some "default") "Bash" none false (.ok (.selected "reject"))
      = .ok ⟨.deny "User refused permission to run tool" true, none, []⟩ :=
  canUseTool_reject_once "default" "Bash" "reject" none (by decide)
    ⟨by decide, by decide⟩ ⟨by decide, by decide⟩

/-- Claim C2, counterexample.  The audio prompt content kind is not in
the declared capability set, yet prompting with a single audio block is
not rejected with a capability-gating error: the converted (empty)
prompt is still pushed to the backend — the backend receives the call —
and with a clean terminal result the turn even completes with end_turn. -/
theorem prompt_audio_not_gated :
    "prompt/audio" ∉ CLAUDE_CAPABILITY.prompt
    ∧ (promptInternal "s1" false [.audio "QUJD" "audio/wav"]
        [.result ⟨.success, false, "done", [], 1, 2, 3, 4⟩]).pushed
        = { content := [], sessionId := "s1" }
    ∧ (promptInternal "s1" false [.audio "QUJD" "audio/wav"]
        [.result ⟨.success, false, "done", [], 1, 2, 3, 4⟩]).outcome = .ok .endTurn := by
  refine ⟨by decide, by decide, by decide⟩

/-- Claim C2, amended: the implementation performs no capability
gating.  A prompt content kind outside the declared set is silently
dropped rather than rejected — an audio block contributes nothing to the
converted prompt — and promptInternal always pushes the converted prompt
to the backend, whatever the content kinds, so the backend receives the
call. -/
theorem no_capability_gating (d m : String) (rest : List ContentBlock)
    (sessionId : String) (cancelled : Bool) (prompt : List ContentBlock)
    (msgs : List SDKMessage) :
    promptToClaude (ContentBlock.audio d m :: rest) sessionId = promptToClaude rest sessionId
    ∧ (promptInternal sessionId cancelled prompt msgs).pushed
        = promptToClaude prompt sessionId := by
  constructor
  · simp [promptToClaude, promptPartsAux]
  · rfl

/-- Claim C5: cancel sets the cancellation flag and forwards exactly one
interrupt to the backend; once the flag is set the prompt loop always
resolves with the cancelled stop reason, whatever the backend emits —
in particular a result message arriving after cancellation yields
cancelled rather than its own terminal reason with no notifications,
and a stream that ends before any backend event yields cancelled with no
notifications. -/
theorem cancel_resolves_cancelled (sessionId : String) (st : SessionState) (r : ResultMsg) :
    ((ClaudeCodeSession.cancel st).1.cancelled = true
      ∧ (ClaudeCodeSession.cancel st).2 = [.interrupt])
    ∧ (∀ cache msgs, (promptLoop sessionId true cache msgs).2 = .ok .cancelled)
    ∧ promptLoop sessionId true [] [] = ([], .ok .cancelled)
    ∧ promptLoop sessionId true [] [.result r] = ([], .ok .cancelled) := by
  refine ⟨⟨rfl, rfl⟩, ?_, rfl, rfl⟩
  intro cache msgs
  induction msgs generalizing cache with
  | nil => rfl
  | cons m rest ih =>
    cases m with
    | system s => exact ih cache
    | result r => rfl
    | streamEvent e => simp [promptLoop, ih]
    | user content => simpa [promptLoop] using ih cache
    | assistant model content => simpa [promptLoop] using ih cache
    | toolProgress => exact ih cache
    | authStatus => exact ih cache

/-- Claim C6: with a session present in the table, closeSession cancels
it unless it was already cancelled (at most one interrupt reaches the
backend), removes it from the table, and a second closeSession on the
same id raises the session-not-exist error before any backend call —
resources are never released twice. -/
theorem closeSession_idempotent (sessions : Sessions) (sessionId : String)
    (st : SessionState) (h : sessions sessionId = some st) :
    ∃ sessions2 calls,
      closeSession sessions sessionId = .ok (sessions2, calls)
      ∧ sessions2 sessionId = none
      ∧ closeSession sessions2 sessionId
          = .error ("SessionId(" ++ sessionId ++ ") is not exist")
      ∧ calls = (if st.cancelled then [] else [.interrupt]) := by
  refine ⟨fun id => if id = sessionId then none else sessions id,
    (ClaudeCodeSession.close st).2, ?_, by simp, ?_, ?_⟩
  · simp [closeSession, h]
  · simp [closeSession]
  · by_cases hc : st.cancelled <;>
      simp [ClaudeCodeSession.close, ClaudeCodeSession.cancel, hc]

/-- Claim C6, witness: the theorem applied to a one-entry table holding
a not-yet-cancelled session. -/
theorem closeSession_idempotent_witness :
    ∃ sessions2 calls,
      closeSession (fun id => if id = "a" then some ⟨false, "default"⟩ else none) "a"
        = .ok (sessions2, calls)
      ∧ sessions2 "a" = none
      ∧ closeSession sessions2 "a" = .error ("SessionId(" ++ "a" ++ ") is not exist")
      ∧ calls = (if (false : Bool) then [] else [.interrupt]) :=
  closeSession_idempotent (fun id => if id = "a" then some ⟨false, "default"⟩ else none)
    "a" ⟨false, "default"⟩ (by simp)

/-- Claim C9: on a terminal success result, when the result text carries
the backend login hint, the prompt aborts with the reserved
authentication-required error (wire code -32000); when the text does not
and the result is flagged a hard failure, the prompt aborts with the
internal error (wire code -32603) carrying the backend detail in its
message; otherwise the prompt emits the usage update notification and
resolves with end_turn. -/
theorem prompt_auth_mapping (sessionId : String) (r : ResultMsg)
    (hsub : r.subtype = .success) :
    (strIncludes r.resultText "Please run /login" = true →
      (promptLoop sessionId false [] [.result r]).2
        = .error (.requestError (RequestError.authRequired none none))
      ∧ (RequestError.authRequired none none).code = -32000)
    ∧ (strIncludes r.resultText "Please run /login" = false → r.isError = true →
      (promptLoop sessionId false [] [.result r]).2
        = .error (.requestError (RequestError.internalError none (some r.resultText)))
      ∧ (RequestError.internalError none (some r.resultText)).code = -32603)
    ∧ (strIncludes r.resultText "Please run /login" = false → r.isError = false →
      promptLoop sessionId false [] [.result r]
        = ([{ sessionId := sessionId
            , update := .usageUpdate r.inputTokens r.outputTokens
                r.cacheReadInputTokens r.cacheCreationInputTokens }], .ok .endTurn)) := by
  refine ⟨fun h1 => ⟨?_, rfl⟩, fun h1 h2 => ⟨?_, rfl⟩, fun h1 h2 => ?_⟩ <;>
    simp [promptLoop, handleResult, hsub, h1]
  · simp [h2]
  · simp [h1, h2]

/-- Claim C9, witness: the theorem applied to a success result carrying
the login hint, with the hypothesis discharged by computation. -/
theorem prompt_auth_mapping_witness :
    (promptLoop "s1" false [] [.result ⟨.success, false, "Please run /login", [], 0, 0, 0, 0⟩]).2
      = .error (.requestError (RequestError.authRequired none none)) :=
  ((prompt_auth_mapping "s1" ⟨.success, false, "Please run /login", [], 0, 0, 0, 0⟩
    rfl).1 (by decide)).1

/-- Claim C8: over any sequence of benign (non-terminal, non-throwing)
backend events of one prompt, the notifications the prompt loop emits
are exactly the concatenation, in event order, of each event's own
notification block computed against the cache state threaded left to
right — dropped events contribute an empty block and nothing is
reordered across event boundaries. -/
theorem prompt_ordering (sessionId : String) (cache : ToolUseCache)
    (msgs : List SDKMessage) (h : ∀ m ∈ msgs, benign m = true) :
    (promptLoop sessionId false cache msgs).1 = (translateSeq sessionId cache msgs).flatten := by
  induction msgs generalizing cache with
  | nil => rfl
  | cons m rest ih =>
    have hm : benign m = true := h m (by simp)
    have hrest : ∀ x ∈ rest, benign x = true := fun x hx => h x (by simp [hx])
    cases m with
    | system s => simpa [promptLoop, translateSeq, translateMsg] using ih cache hrest
    | result r => simp [benign] at hm
    | streamEvent e => simp [promptLoop, translateSeq, translateMsg, ih _ hrest]
    | toolProgress => simpa [promptLoop, translateSeq, translateMsg] using ih cache hrest
    | authStatus => simpa [promptLoop, translateSeq, translateMsg] using ih cache hrest
    | user content =>
      cases content with
      | str s => simpa [promptLoop, translateSeq, translateMsg] using ih cache hrest
      | arr chunks =>
        by_cases hs : isSingleText chunks = true
        · simpa [promptLoop, translateSeq, translateMsg, hs] using ih cache hrest
        · simp [promptLoop, translateSeq, translateMsg, hs, ih _ hrest]
    | assistant model content =>
      cases content with
      | str s =>
        have hmark : (strIncludes s "<local-command-stdout>"
            || strIncludes s "<local-command-stderr>") = true := by
          simpa [benign] using hm
        simpa [promptLoop, translateSeq, translateMsg, hmark] using ih cache hrest
      | arr chunks =>
        have hsyn : isSyntheticLogin model chunks = false := by
          simpa [benign] using hm
        simp [promptLoop, translateSeq, translateMsg, hsyn, ih _ hrest]

/-- Claim C8, witness: the theorem applied to a concrete benign event
sequence (a stream text delta followed by a user message carrying an
untracked tool result). -/
theorem prompt_ordering_witness :
    (promptLoop "s1" false []
      [.streamEvent (.contentBlockDelta (.textDelta "hi")),
       .user (.arr [.toolResult "z" none ""])]).1
    = (translateSeq "s1" []
      [.streamEvent (.contentBlockDelta (.textDelta "hi")),
       .user (.arr [.toolResult "z" none ""])]).flatten :=
  prompt_ordering "s1" []
    [.streamEvent (.contentBlockDelta (.textDelta "hi")),
     .user (.arr [.toolResult "z" none ""])] (by decide)

/-- The chunk loop distributes over list append, threading the cache. -/
theorem toAcpFold_append (role sessionId : String) (cache : ToolUseCache)
    (xs ys : List Chunk) :
    toAcpFold role sessionId cache (xs ++ ys)
      = ((toAcpFold role sessionId cache xs).1
          ++ (toAcpFold role sessionId (toAcpFold role sessionId cache xs).2 ys).1,
         (toAcpFold role sessionId (toAcpFold role sessionId cache xs).2 ys).2) := by
  induction xs generalizing cache with
  | nil => simp [toAcpFold]
  | cons c rest ih =>
    cases hpc : (processChunk role cache c).1 <;>
      simp [toAcpFold, hpc, ih]

/-- The cache effect of a tool-use chunk is the insertion of its id,
whatever the tool name and input shape. -/
theorem processChunk_toolUse_cache (role : String) (cache : ToolUseCache)
    (id name : String) (input : ToolInput) :
    (processChunk role cache (.toolUse id name input)).2
      = cacheInsert cache id ⟨name, input⟩ := by
  by_cases h : name = "TodoWrite" <;> cases hin : input.todos <;>
    simp [processChunk, h, hin]

/-- A chunk that does not write a given id leaves that cache entry
unchanged. -/
theorem processChunk_cache_stable (role : String) (cache : ToolUseCache)
    (X : String) (c : Chunk) (h : writesId X c = false) :
    cacheLookup (processChunk role cache c).2 X = cacheLookup cache X := by
  cases c with
  | toolUse id name input =>
    have hid : (id = X) = False := by simpa [writesId] using h
    rw [processChunk_toolUse_cache]
    simp [cacheLookup, cacheInsert, List.find?, hid]
  | toolResult tuId isError raw =>
    cases hl : cacheLookup cache tuId with
    | none => simp [processChunk, hl]
    | some tu => by_cases ht : tu.name = "TodoWrite" <;> simp [processChunk, hl, ht]
  | text s => rfl
  | textDelta s => rfl
  | image a b cc dd => rfl
  | thinking s => rfl
  | thinkingDelta s => rfl
  | passive => rfl

/-- A chunk sequence without writers of a given id leaves that cache
entry unchanged across the whole loop. -/
theorem toAcpFold_cache_stable (role sessionId : String) (cache : ToolUseCache)
    (X : String) (chunks : List Chunk) (h : ∀ c ∈ chunks, writesId X c = false) :
    cacheLookup (toAcpFold role sessionId cache chunks).2 X = cacheLookup cache X := by
  induction chunks generalizing cache with
  | nil => rfl
  | cons c rest ih =>
    have h1 : writesId X c = false := h c (by simp)
    have h2 : ∀ x ∈ rest, writesId X x = false := fun x hx => h x (by simp [hx])
    calc cacheLookup (toAcpFold role sessionId cache (c :: rest)).2 X
        = cacheLookup (toAcpFold role sessionId (processChunk role cache c).2 rest).2 X := by
          simp only [toAcpFold]
      _ = cacheLookup (processChunk role cache c).2 X := ih _ h2
      _ = cacheLookup cache X := processChunk_cache_stable role cache X c h1

/-- Claim C4, counterexample.  A TodoWrite invocation is cached under
its id and its matching tool result arrives later, yet the translator
emits no tool_call_update at all for it (the invocation itself surfaced
as a plan update), so the claim that every cached invocation followed by
its matching result yields a tool_call_update is false at this input. -/
theorem toolResult_todoWrite_no_update :
    (toAcpFold "user" "s1" []
      [.toolUse "t1" "TodoWrite" ⟨some [⟨"x", "pending", "x"⟩], ""⟩,
       .toolResult "t1" (some false) ""]).1
      = [{ sessionId := "s1", update := .plan [⟨"x", "pending", "medium"⟩] }]
    ∧ ((toAcpFold "user" "s1" []
      [.toolUse "t1" "TodoWrite" ⟨some [⟨"x", "pending", "x"⟩], ""⟩,
       .toolResult "t1" (some false) ""]).1.all fun n =>
        match n.update with
        | .toolCallUpdate _ _ _ _ _ _ => false
        | _ => true) = true := by
  refine ⟨by decide, by decide⟩

/-- Claim C4, amended: for a cached tool invocation whose tool is not
the plan tool (TodoWrite), a later tool result with the same id — with
no intervening re-registration of that id — appends exactly one
tool_call_update notification whose toolCallId is that id and whose
status is failed exactly when the result carries is_error true and
completed otherwise, leaving the cache unchanged; and a tool result
whose id has no cached invocation appends no notification (and, the
translation being a total function, never crashes). -/
theorem toolResult_correlation (role sessionId X name : String) (input : ToolInput)
    (cache : ToolUseCache) (pre mid : List Chunk) (isError : Option Bool) (raw : String)
    (hname : name ≠ "TodoWrite")
    (hmid : ∀ c ∈ mid, writesId X c = false) :
    (toAcpFold role sessionId cache
        ((pre ++ Chunk.toolUse X name input :: mid) ++ [Chunk.toolResult X isError raw]))
      = ((toAcpFold role sessionId cache (pre ++ Chunk.toolUse X name input :: mid)).1
          ++ [{ sessionId := sessionId
              , update := .toolCallUpdate X
                  (if isError = some true then .failed else .completed)
                  isError raw name input }],
         (toAcpFold role sessionId cache (pre ++ Chunk.toolUse X name input :: mid)).2)
    ∧ ∀ (cache2 : ToolUseCache) (chunks : List Chunk) (Y : String),
        cacheLookup (toAcpFold role sessionId cache2 chunks).2 Y = none →
        (toAcpFold role sessionId cache2 (chunks ++ [Chunk.toolResult Y isError raw])).1
          = (toAcpFold role sessionId cache2 chunks).1 := by
  constructor
  · have hsplit : pre ++ Chunk.toolUse X name input :: mid
        = (pre ++ [Chunk.toolUse X name input]) ++ mid := by simp
    have hlook : cacheLookup
        (toAcpFold role sessionId cache (pre ++ Chunk.toolUse X name input :: mid)).2 X
        = some ⟨name, input⟩ := by
      rw [hsplit, toAcpFold_append, toAcpFold_cache_stable role sessionId _ X mid hmid,
        toAcpFold_append]
      have : (toAcpFold role sessionId
          (toAcpFold role sessionId cache pre).2 [Chunk.toolUse X name input]).2
          = cacheInsert (toAcpFold role sessionId cache pre).2 X ⟨name, input⟩ := by
        simp only [toAcpFold, processChunk_toolUse_cache]
      rw [this]
      simp [cacheLookup, cacheInsert, List.find?]
    rw [toAcpFold_append]
    simp [toAcpFold, processChunk, hlook, hname]
  · intro cache2 chunks Y hnone
    rw [toAcpFold_append]
    simp [toAcpFold, processChunk, hnone]

/-- Claim C4, witness: the amended theorem applied to a Bash invocation
followed, after an ignored chunk, by its failing result. -/
theorem toolResult_correlation_witness :
    (toAcpFold "user" "s1" []
        (([] ++ Chunk.toolUse "t9" "Bash" ⟨none, ""⟩ :: [Chunk.passive])
          ++ [Chunk.toolResult "t9" (some true) "boom"]))
      = ((toAcpFold "user" "s1" ([] : ToolUseCache)
            ([] ++ Chunk.toolUse "t9" "Bash" ⟨none, ""⟩ :: [Chunk.passive])).1
          ++ [{ sessionId := "s1"
              , update := .toolCallUpdate "t9"
                  (if (some true : Option Bool) = some true then .failed else .completed)
                  (some true) "boom" "Bash" ⟨none, ""⟩ }],
         (toAcpFold "user" "s1" ([] : ToolUseCache)
            ([] ++ Chunk.toolUse "t9" "Bash" ⟨none, ""⟩ :: [Chunk.passive])).2) :=
  (toolResult_correlation "user" "s1" "t9" "Bash" ⟨none, ""⟩ [] [] [Chunk.passive]
    (some true) "boom" (by decide) (by decide)).1

/-- A split never yields an empty segment list. -/
theorem splitSep_ne_nil (sep : Char) (l : List Char) : splitSep sep l ≠ [] := by
  cases l with
  | nil => simp [splitSep]
  | cons c rest =>
    by_cases h : c = sep
    · simp [splitSep, h]
    · cases hs : splitSep sep rest <;> simp [splitSep, h, hs]

/-- mergeHead never empties a segment list. -/
theorem mergeHead_ne_nil (x : List Char) (ls : List (List Char)) : mergeHead x ls ≠ [] := by
  cases ls <;> simp [mergeHead]

/-- dropLast distributes over an append with a nonempty right part. -/
theorem dropLast_append_ne_nil {α : Type} (a : List α) {b : List α} (hb : b ≠ []) :
    (a ++ b).dropLast = a ++ b.dropLast := by
  cases b with
  | nil => exact absurd rfl hb
  | cons x xs => rw [List.dropLast_append_cons]

/-- lastSeg of a cons with a nonempty tail skips the head. -/
theorem lastSeg_cons_of_ne_nil (x : List Char) {ls : List (List Char)} (h : ls ≠ []) :
    lastSeg (x :: ls) = lastSeg ls := by
  cases ls with
  | nil => exact absurd rfl h
  | cons y ys => rfl

/-- A nonempty segment list is its dropLast followed by its lastSeg. -/
theorem dropLast_append_lastSeg {ls : List (List Char)} (h : ls ≠ []) :
    ls.dropLast ++ [lastSeg ls] = ls := by
  induction ls with
  | nil => exact absurd rfl h
  | cons x xs ih =>
    cases xs with
    | nil => rfl
    | cons y ys =>
      rw [lastSeg_cons_of_ne_nil x (by simp), List.dropLast_cons₂, List.cons_append,
        ih (by simp)]

/-- Splitting an append: the complete segments of the left part, then
the split of the right part with the held last left segment glued onto
its first segment — the buffering algebra of the framer. -/
theorem splitSep_append (sep : Char) (a b : List Char) :
    splitSep sep (a ++ b)
      = (splitSep sep a).dropLast ++ mergeHead (lastSeg (splitSep sep a)) (splitSep sep b) := by
  induction a with
  | nil =>
    cases hb : splitSep sep b with
    | nil => exact absurd hb (splitSep_ne_nil sep b)
    | cons y ys =>
      simp only [List.nil_append, splitSep, lastSeg, mergeHead, hb, List.dropLast_single]
  | cons c a2 ih =>
    by_cases hc : c = sep
    · cases hs : splitSep sep a2 with
      | nil => exact absurd hs (splitSep_ne_nil sep a2)
      | cons s ss =>
        have hlast : lastSeg ([] :: s :: ss) = lastSeg (s :: ss) := rfl
        simp only [List.cons_append, splitSep, if_pos hc, hs, hlast,
          List.dropLast_cons₂, List.append_eq]
        rw [ih, hs]
    · cases hs : splitSep sep a2 with
      | nil => exact absurd hs (splitSep_ne_nil sep a2)
      | cons s ss =>
        cases ss with
        | nil =>
          cases ht : splitSep sep b with
          | nil => exact absurd ht (splitSep_ne_nil sep b)
          | cons t ts =>
            simp [splitSep, hc, ih, hs, ht, lastSeg, mergeHead]
        | cons u us =>
          have hlast : lastSeg ((c :: s) :: u :: us) = lastSeg (u :: us) := rfl
          have hlast2 : lastSeg (s :: u :: us) = lastSeg (u :: us) := rfl
          simp [splitSep, hc, ih, hs, hlast, hlast2, List.dropLast_cons₂, mergeHead]

/-- A separator-free text splits into itself alone. -/
theorem splitSep_of_not_mem (sep : Char) (l : List Char) (h : sep ∉ l) :
    splitSep sep l = [l] := by
  induction l with
  | nil => rfl
  | cons c rest ih =>
    have hc : ¬(c = sep) := fun hh => h (by simp [hh])
    have hr : sep ∉ rest := fun hh => h (by simp [hh])
    simp [splitSep, hc, ih hr]

/-- No segment of a split contains the separator; in particular the
held buffer (the last segment) never does. -/
theorem not_mem_of_mem_splitSep (sep : Char) (l : List Char) :
    ∀ s ∈ splitSep sep l, sep ∉ s := by
  induction l with
  | nil =>
    intro s hs
    simp [splitSep] at hs
    simp [hs]
  | cons c rest ih =>
    intro s hs
    by_cases hc : c = sep
    · simp only [splitSep, if_pos hc] at hs
      rcases List.mem_cons.mp hs with h | h
      · simp [h]
      · exact ih s h
    · cases hr : splitSep sep rest with
      | nil => exact absurd hr (splitSep_ne_nil sep rest)
      | cons m ms =>
        simp only [splitSep, if_neg hc, hr] at hs
        rcases List.mem_cons.mp hs with h | h
        · subst h
          intro hmem
          rcases List.mem_cons.mp hmem with h2 | h2
          · exact hc h2.symm
          · exact ih m (by simp [hr]) h2
        · exact ih s (by simp [hr, h])

/-- The last segment of a nonempty segment list is a member of it. -/
theorem lastSeg_mem : ∀ (ls : List (List Char)), ls ≠ [] → lastSeg ls ∈ ls := by
  intro ls
  induction ls with
  | nil => intro h; exact absurd rfl h
  | cons x xs ih =>
    intro _
    cases xs with
    | nil => simp [lastSeg]
    | cons y ys =>
      have := ih (by simp)
      simp only [lastSeg]
      exact List.mem_cons_of_mem x this

/-- The separator never sits in the last segment of a split. -/
theorem sep_not_mem_lastSeg (sep : Char) (l : List Char) :
    sep ∉ lastSeg (splitSep sep l) :=
  not_mem_of_mem_splitSep sep l _ (lastSeg_mem _ (splitSep_ne_nil sep l))

/-- Line processing distributes over segment list append. -/
theorem processLines_append {α : Type} (parse : List Char → Option α)
    (a b : List (List Char)) :
    processLines parse (a ++ b) = processLines parse a ++ processLines parse b := by
  simp [processLines, List.filterMap_append]

/-- The read loop from any newline-free buffer equals the full-text
processing of the complete lines of the buffer followed by the joined
chunks: the decoded sequence depends only on the concatenated text, and
is exactly the complete (newline-terminated) records of it. -/
theorem ndDecodeLoop_eq {α : Type} (parse : List Char → Option α)
    (chunks : List (List Char)) :
    ∀ buffer, '\n' ∉ buffer →
      ndDecodeLoop parse chunks buffer
        = processLines parse (splitSep '\n' (buffer ++ chunks.flatten)).dropLast := by
  induction chunks with
  | nil =>
    intro buffer hb
    rw [splitSep_of_not_mem '\n' (buffer ++ [].flatten) (by simpa using hb)]
    rfl
  | cons c cs ih =>
    intro buffer hb
    have hlb : '\n' ∉ lastSeg (splitSep '\n' (buffer ++ c)) :=
      sep_not_mem_lastSeg '\n' (buffer ++ c)
    have hmain : splitSep '\n' (buffer ++ (c :: cs).flatten)
        = (splitSep '\n' (buffer ++ c)).dropLast
          ++ splitSep '\n' (lastSeg (splitSep '\n' (buffer ++ c)) ++ cs.flatten) := by
      have h1 : buffer ++ (c :: cs).flatten = (buffer ++ c) ++ cs.flatten := by simp
      rw [h1, splitSep_append]
      rw [splitSep_append '\n' (lastSeg (splitSep '\n' (buffer ++ c))) cs.flatten,
        splitSep_of_not_mem '\n' _ hlb]
      rfl
    calc ndDecodeLoop parse (c :: cs) buffer
        = processLines parse (splitSep '\n' (buffer ++ c)).dropLast
            ++ ndDecodeLoop parse cs (lastSeg (splitSep '\n' (buffer ++ c))) := rfl
      _ = processLines parse (splitSep '\n' (buffer ++ c)).dropLast
            ++ processLines parse
              (splitSep '\n' (lastSeg (splitSep '\n' (buffer ++ c)) ++ cs.flatten)).dropLast := by
          rw [ih _ hlb]
      _ = processLines parse (splitSep '\n' (buffer ++ (c :: cs).flatten)).dropLast := by
          rw [hmain, dropLast_append_ne_nil _ (splitSep_ne_nil '\n' _), processLines_append]

/-- Claim C7, counterexample.  A stream whose concatenated text does not
end in a newline: the claimed sequence (split the full text on newlines,
parse each non-blank record) contains the trailing record, but the
decoder discards the held partial record when the stream ends, so the
two sequences differ at this input. -/
theorem ndJsonDecode_drops_trailing :
    ndJsonDecode parseNum ["1\n2".toList] = [1]
    ∧ claimDecode parseNum "1\n2".toList = [1, 2] := by
  refine ⟨by decide, by decide⟩

/-- Claim C7, amended: the decoder yields exactly the claimed sequence
restricted to the complete (newline-terminated) records — the trailing
segment after the last newline, an unterminated partial record, is
discarded when the underlying stream ends.  The result depends only on
the concatenated text, never on how it is chunked across reads;
malformed records are skipped (parse yields none) and the sequence
continues; the sequence is a finite list, so it terminates with the
stream.  When the trailing segment is blank the decoder agrees with the
claimed sequence exactly. -/
theorem ndJsonDecode_framing {α : Type} (parse : List Char → Option α)
    (chunks : List (List Char)) (text : List Char) :
    ndJsonDecode parse chunks
      = processLines parse (splitSep '\n' chunks.flatten).dropLast
    ∧ ndJsonDecode parse chunks = ndJsonDecode parse [chunks.flatten]
    ∧ (jsTrim (lastSeg (splitSep '\n' text)) = [] →
        ndJsonDecode parse [text] = claimDecode parse text) := by
  refine ⟨ndDecodeLoop_eq parse chunks [] (by simp), ?_, ?_⟩
  · unfold ndJsonDecode
    rw [ndDecodeLoop_eq parse chunks [] (by simp),
      ndDecodeLoop_eq parse [chunks.flatten] [] (by simp)]
    simp
  · intro hblank
    unfold ndJsonDecode claimDecode
    rw [ndDecodeLoop_eq parse [text] [] (by simp)]
    conv_rhs => rw [← dropLast_append_lastSeg (splitSep_ne_nil '\n' text)]
    rw [processLines_append]
    simp [processLines, hblank]

/-- Claim C7, witness: the amended theorem applied to a concrete
newline-terminated two-record stream split across two reads, with the
blank-trailing hypothesis discharged by computation. -/
theorem ndJsonDecode_framing_witness :
    ndJsonDecode parseNum ["1\n4".toList, "2\n".toList]
      = processLines parseNum (splitSep '\n' ["1\n4".toList, "2\n".toList].flatten).dropLast
    ∧ ndJsonDecode parseNum ["1\n4".toList, "2\n".toList]
      = ndJsonDecode parseNum [["1\n4".toList, "2\n".toList].flatten]
    ∧ ndJsonDecode parseNum ["1\n42\n".toList] = claimDecode parseNum "1\n42\n".toList :=
  ⟨(ndJsonDecode_framing parseNum ["1\n4".toList, "2\n".toList] "1\n42\n".toList).1,
   (ndJsonDecode_framing parseNum ["1\n4".toList, "2\n".toList] "1\n42\n".toList).2.1,
   (ndJsonDecode_framing parseNum ["1\n4".toList, "2\n".toList] "1\n42\n".toList).2.2
     (by decide)⟩

/-- Every list is a Boolean prefix of itself followed by anything. -/
theorem isPrefixOf_self_append (p t : List Char) : p.isPrefixOf (p ++ t) = true := by
  induction p with
  | nil => simp [List.isPrefixOf]
  | cons c cs ih => simp [List.isPrefixOf, ih]

/-- Every list is a Boolean suffix of anything followed by itself. -/
theorem isSuffixOf_append_self (l p : List Char) : p.isSuffixOf (l ++ p) = true := by
  unfold List.isSuffixOf
  rw [List.reverse_append]
  exact isPrefixOf_self_append p.reverse l.reverse

/-- A nonempty pattern is not a Boolean prefix of a list starting with a
different character. -/
theorem isPrefixOf_cons_ne (ph : Char) (pt t : List Char) (c : Char) (h : c ≠ ph) :
    (ph :: pt).isPrefixOf (c :: t) = false := by
  have hb : (ph == c) = false := beq_eq_false_iff_ne.mpr fun hh => h hh.symm
  simp [List.isPrefixOf, hb]

/-- First-occurrence replacement by the empty string removes a pattern
appended after text free of the pattern head character. -/
theorem replaceFirstStr_strip (ph : Char) (pt l : List Char)
    (h : ∀ c ∈ l, c ≠ ph) :
    replaceFirstStr (ph :: pt) [] (l ++ ph :: pt) = l := by
  induction l with
  | nil =>
    simp [replaceFirstStr, isPrefixOf_self_append (ph :: pt) []]
  | cons c rest ih =>
    have hc : c ≠ ph := h c (by simp)
    have hrest : ∀ x ∈ rest, x ≠ ph := fun x hx => h x (by simp [hx])
    rw [List.cons_append, replaceFirstStr, if_neg, ih hrest]
    rw [isPrefixOf_cons_ne ph pt _ c hc]
    simp

/-- takeWhile of an all-satisfying list is the list itself. -/
theorem takeWhile_all (p : Char → Bool) (l : List Char) (h : ∀ c ∈ l, p c = true) :
    l.takeWhile p = l := by
  induction l with
  | nil => rfl
  | cons c rest ih =>
    rw [List.takeWhile_cons, if_pos (h c (by simp)), ih fun x hx => h x (by simp [hx])]

/-- Claim C10, counterexample.  With an empty server part — which
satisfies the claimed constraints, since an empty string contains no
colon and no whitespace — and the one-character command c, the backend
command named :c (MCP) renames to mcp::c, but prompting with the renamed
name does not reproduce the original: the rewriting regex requires a
nonempty server, fails to match, and leaves the text unchanged. -/
theorem mcp_roundtrip_counterexample :
    (promptToClaude
        [.text ('/' :: renameCommand (([] : List Char) ++ ':' :: ("c".toList ++ mcpSuffix)))]
        "s1").content
      ≠ [.text ('/' :: (([] : List Char) ++ ':' :: ("c".toList ++ mcpSuffix)))]
    ∧ (∀ c ∈ ([] : List Char), ¬c = ':' ∧ wsChar c = false)
    ∧ "c".toList ≠ []
    ∧ (∀ c ∈ "c".toList, wsChar c = false) := by
  refine ⟨by decide, by decide, by decide, by decide⟩

/-- Claim C10, amended: for every backend command named
server:command (MCP) where the server part is nonempty and contains no
colon and no whitespace and the command part is nonempty and contains no
whitespace, renaming the command and then prompting with slash plus the
renamed name converts back to exactly slash plus the original name. -/
theorem mcp_roundtrip (server command : List Char) (sessionId : String)
    (hs : server ≠ [])
    (hsok : ∀ c ∈ server, ¬c = ':' ∧ wsChar c = false)
    (hc : command ≠ [])
    (hcok : ∀ c ∈ command, wsChar c = false) :
    (promptToClaude
        [.text ('/' :: renameCommand (server ++ ':' :: (command ++ mcpSuffix)))]
        sessionId).content
      = [.text ('/' :: (server ++ ':' :: (command ++ mcpSuffix)))] := by
  have hsuffix : mcpSuffix = ' ' :: "(MCP)".toList := by decide
  have hassoc : server ++ ':' :: (command ++ mcpSuffix)
      = (server ++ ':' :: command) ++ mcpSuffix := by simp
  have hnospace : ∀ c ∈ server ++ ':' :: command, c ≠ ' ' := by
    intro c hmem
    rcases List.mem_append.mp hmem with h | h
    · intro hsp
      have := (hsok c h).2
      rw [hsp] at this
      simp [wsChar] at this
    · rcases List.mem_cons.mp h with h2 | h2
      · simp [h2]
      · intro hsp
        have := hcok c h2
        rw [hsp] at this
        simp [wsChar] at this
  have hrename : renameCommand (server ++ ':' :: (command ++ mcpSuffix))
      = "mcp:".toList ++ (server ++ ':' :: command) := by
    unfold renameCommand
    rw [hassoc, if_pos (isSuffixOf_append_self _ _)]
    rw [hsuffix, replaceFirstStr_strip ' ' _ _ hnospace]
  have h0 : "/mcp:".toList = '/' :: "mcp:".toList := by decide
  have hpfx : '/' :: ("mcp:".toList ++ (server ++ ':' :: command))
      = "/mcp:".toList ++ (server ++ ':' :: command) := by
    rw [h0, List.cons_append]
  have htw1 : (server ++ ':' :: command).takeWhile (fun c => !(c = ':') && !wsChar c)
      = server := by
    rw [List.takeWhile_append_of_pos (by
      intro a ha
      have := hsok a ha
      simp [this.1, this.2])]
    rw [List.takeWhile_cons]
    simp
  have htw2 : command.takeWhile (fun c => !wsChar c) = command :=
    takeWhile_all _ command fun c hmem => by simp [hcok c hmem]
  have hse : server.isEmpty = false := by
    cases server with
    | nil => exact absurd rfl hs
    | cons x xs => rfl
  have hce : command.isEmpty = false := by
    cases command with
    | nil => exact absurd rfl hc
    | cons x xs => rfl
  have h5 : ("/mcp:".toList ++ (server ++ ':' :: command)).drop 5
      = server ++ ':' :: command := List.drop_left' (by decide)
  have hmatch : mcpMatch ("/mcp:".toList ++ (server ++ ':' :: command))
      = some (server, command, []) := by
    simp only [mcpMatch, isPrefixOf_self_append, h5, htw1, hse, if_true,
      Bool.false_eq_true, if_false, List.drop_left, htw2, hce, List.drop_length,
      List.isEmpty_nil]
  have hrew : rewriteMcpText ('/' :: renameCommand (server ++ ':' :: (command ++ mcpSuffix)))
      = '/' :: (server ++ ':' :: (command ++ mcpSuffix)) := by
    rw [hrename, hpfx]
    unfold rewriteMcpText
    rw [hmatch]
    simp
  simp [promptToClaude, promptPartsAux, hrew]

/-- Claim C10, witness: the amended theorem applied to the one-character
server s and one-character command c. -/
theorem mcp_roundtrip_witness :
    (promptToClaude
        [.text ('/' :: renameCommand ("s".toList ++ ':' :: ("c".toList ++ mcpSuffix)))]
        "sid1").content
      = [.text ('/' :: ("s".toList ++ ':' :: ("c".toList ++ mcpSuffix)))] :=
  mcp_roundtrip "s".toList "c".toList "sid1" (by decide) (by decide) (by decide) (by decide)

end CodeCliSdk
